import Mathlib

/-
Shallow embedding of the megawatcher core (state/megawatcher.go): the
allInfo store of entity entries, its mutating operations (add, update,
markRemoved, decRef, delete), the read-only changesSince, the per-watcher
request-queue handling of allWatcher.handle/respond, and allWatcher.changed.

Go's map-plus-doubly-linked-list pair is embedded as a single association
list kept in the list's order (front of the Go list = head of the Lean
list); the map is the association lookup. Entity ids (Go entityId) and
entity payloads (Go params.EntityInfo) are type parameters with decidable
equality (Go compares payloads with reflect.DeepEqual). Go int64 revnos and
int refcounts are Int. A Go panic is embedded as the operation returning
none.
-/

set_option linter.unusedSectionVars false

namespace Megawatcher

variable {Id Info E : Type} [DecidableEq Id] [DecidableEq Info]

/-- Embeds Go entityEntry: revno, creationRevno, removed, refCount, info. -/
structure EntityEntry (Info : Type) where
  revno : Int
  creationRevno : Int
  removed : Bool
  refCount : Int
  info : Info
deriving DecidableEq, Repr

/-- Embeds Go allInfo: latestRevno plus the entities map and the
doubly-linked list, fused into one association list in list order
(head = front of the Go list, i.e. the most recent revno). -/
structure AllInfo (Id Info : Type) where
  latestRevno : Int
  list : List (Id × EntityEntry Info)
deriving DecidableEq, Repr

/-- Embeds Go params.Delta: a removed flag and the entity payload. -/
structure Delta (Info : Type) where
  removed : Bool
  entity : Info
deriving DecidableEq, Repr

/-- Lookup in the association list: embeds the Go map access
a.entities[id] (some entry when the element is present, none for nil). -/
def findEntry : List (Id × EntityEntry Info) → Id → Option (EntityEntry Info)
  | [], _ => none
  | p :: t, id => if p.1 = id then some p.2 else findEntry t id

/-- Removes the binding of id (first match): embeds the combined
delete(a.entities, id) and a.list.Remove(elem) on the fused list. -/
def removeId : List (Id × EntityEntry Info) → Id → List (Id × EntityEntry Info)
  | [], _ => []
  | p :: t, id => if p.1 = id then t else p :: removeId t id

/-- Replaces the entry bound to id in place (no reordering): embeds a Go
field assignment through the pointer held in the map/list element. -/
def replaceId : List (Id × EntityEntry Info) → Id → EntityEntry Info → List (Id × EntityEntry Info)
  | [], _, _ => []
  | p :: t, id, e => if p.1 = id then (id, e) :: t else p :: replaceId t id e

/-- Embeds Go a.entities[id] on an allInfo value. -/
def AllInfo.getEntity (a : AllInfo Id Info) (id : Id) : Option (EntityEntry Info) :=
  findEntry a.list id

/-- Embeds Go newAllInfo(): zero latestRevno, empty map and list. -/
def newAllInfo : AllInfo Id Info :=
  { latestRevno := 0, list := [] }

/-- The body of Go allInfo.add after the duplicate-id check has passed:
increment latestRevno, build the entry with revno = creationRevno =
latestRevno, removed and refCount at their Go zero values, push front. -/
def AllInfo.addRaw (a : AllInfo Id Info) (id : Id) (info : Info) : AllInfo Id Info :=
  { latestRevno := a.latestRevno + 1,
    list := (id, { revno := a.latestRevno + 1, creationRevno := a.latestRevno + 1,
                   removed := false, refCount := 0, info := info }) :: a.list }

/-- Embeds Go allInfo.add: panics (none) when the id is already present,
otherwise performs the insertion. -/
def AllInfo.add (a : AllInfo Id Info) (id : Id) (info : Info) : Option (AllInfo Id Info) :=
  if (a.getEntity id).isSome then none else some (a.addRaw id info)

/-- Embeds Go allInfo.delete: when the id is absent it returns with the
state unchanged (the Go function has no panic path), otherwise it removes
the entry from map and list. -/
def AllInfo.delete (a : AllInfo Id Info) (id : Id) : AllInfo Id Info :=
  match a.getEntity id with
  | none => a
  | some _ => { a with list := removeId a.list id }

/-- Embeds Go allInfo.markRemoved: absent id or already-removed entry is a
no-op; otherwise latestRevno is incremented first, then a zero-refcount
entry is deleted outright, and any other entry is tombstoned (removed set,
revno set to the new latestRevno) and moved to the list front. -/
def AllInfo.markRemoved (a : AllInfo Id Info) (id : Id) : AllInfo Id Info :=
  match a.getEntity id with
  | none => a
  | some entry =>
    if entry.removed then a
    else
      if entry.refCount = 0 then
        AllInfo.delete { a with latestRevno := a.latestRevno + 1 } id
      else
        { latestRevno := a.latestRevno + 1,
          list := (id, { entry with revno := a.latestRevno + 1, removed := true })
                    :: removeId a.list id }

/-- Embeds Go allInfo.update: absent id defers to add (whose duplicate
check cannot fire there, hence addRaw); equal payload (reflect.DeepEqual)
is a no-op; otherwise latestRevno is incremented, the entry gets the new
revno and payload and is moved to the list front. -/
def AllInfo.update (a : AllInfo Id Info) (id : Id) (info : Info) : AllInfo Id Info :=
  match a.getEntity id with
  | none => a.addRaw id info
  | some entry =>
    if info = entry.info then a
    else
      { latestRevno := a.latestRevno + 1,
        list := (id, { entry with revno := a.latestRevno + 1, info := info })
                  :: removeId a.list id }

/-- Embeds Go allInfo.decRef at its call sites (seen, leave), which always
pass the entry held in the map at id: decrement the refcount through the
pointer; a still-positive count or a not-removed entry just keeps the
decremented count; a removed entry reaching zero is deleted from map and
list. The count going negative panics (none); an id not backed by a map
element aborts as well (Go panics "delete of non-existent entry" on the
removed path, and no call site can reach the others). -/
def AllInfo.decRef (a : AllInfo Id Info) (id : Id) : Option (AllInfo Id Info) :=
  match a.getEntity id with
  | none => none
  | some entry =>
    if entry.refCount - 1 > 0 then
      some { a with list := replaceId a.list id { entry with refCount := entry.refCount - 1 } }
    else if entry.refCount - 1 < 0 then
      none
    else if entry.removed = false then
      some { a with list := replaceId a.list id { entry with refCount := entry.refCount - 1 } }
    else
      some { a with list := removeId a.list id }

/-- Embeds Go allInfo.changesSince. The first Go loop walks from the front
until the first entry with revno ≤ revno, i.e. it isolates the
takeWhile (revno < entry revno) front segment; the second loop walks that
segment from its last element back to the front (reverse order), skipping
entries that are removed with creationRevno > revno and emitting a Delta
with the entry's removed flag and payload for the rest. -/
def AllInfo.changesSince (a : AllInfo Id Info) (revno : Int) : List (Delta Info) :=
  ((a.list.takeWhile fun p => decide (revno < p.2.revno)).reverse).filterMap
    fun p =>
      if p.2.removed && decide (revno < p.2.creationRevno) then none
      else some { removed := p.2.removed, entity := p.2.info }

/-- State-passing form of Go allInfo.changesSince: the Go body only reads
a (list walks and field reads; the writes build the local changes slice),
so the embedding threads the state through unchanged. -/
def AllInfo.changesSinceS (a : AllInfo Id Info) (revno : Int) :
    AllInfo Id Info × List (Delta Info) :=
  (a, a.changesSince revno)

/-- Per-watcher slice of Go allWatcher state: the watcher's revno and its
list of outstanding Next requests (aw.waiting[w]), identified by tags;
the head is the request most recently pushed by handle. -/
structure WatcherState where
  revno : Int
  pending : List Nat
deriving DecidableEq, Repr

/-- Embeds the Next-request arm of Go allWatcher.handle: the request is
added at the head of the watcher's waiting list. -/
def handleNext (w : WatcherState) (reqId : Nat) : WatcherState :=
  { w with pending := reqId :: w.pending }

/-- Outcome of one respond pass for one watcher: its updated revno, its
remaining queue, and the request replied true together with the delta list
stored into its changes field (none when nothing was satisfiable). -/
structure RespondResult (Info : Type) where
  revno : Int
  pending : List Nat
  replied : Option (Nat × List (Delta Info))
deriving DecidableEq, Repr

/-- Embeds the body of Go allWatcher.respond for one watcher w: take the
head request of aw.waiting[w], compute changesSince(w.revno); if empty do
nothing; otherwise store the changes on that request, advance w.revno to
latestRevno, reply true, and pop the head (aw.waiting[w] = req.next). -/
def respondOne (all : AllInfo Id Info) (w : WatcherState) : RespondResult Info :=
  match w.pending with
  | [] => { revno := w.revno, pending := [], replied := none }
  | req :: rest =>
    let changes := all.changesSince w.revno
    if changes = [] then { revno := w.revno, pending := req :: rest, replied := none }
    else { revno := all.latestRevno, pending := rest, replied := some (req, changes) }

/-- Result of allWatcherBacking.fetch: the entity's payload, mgo.ErrNotFound,
or any other error. -/
inductive FetchResult (Info E : Type) where
  | notFound
  | fetchErr (e : E)
  | ok (info : Info)

/-- Embeds Go allWatcher.changed given the outcome of backing.fetch(id):
ErrNotFound becomes markRemoved and a nil error; any other fetch error is
returned as is; a fetched payload becomes update and a nil error. -/
def changed (a : AllInfo Id Info) (id : Id) (r : FetchResult Info E) :
    Except E (AllInfo Id Info) :=
  match r with
  | .notFound => .ok (a.markRemoved id)
  | .fetchErr e => .error e
  | .ok info => .ok (a.update id info)

/-- The revnos of a list of entries, in list order. -/
def revnos (l : List (Id × EntityEntry Info)) : List Int :=
  l.map fun p => p.2.revno

/-- The documented ordering invariant: the list is strictly sorted by
revno descending (front largest). -/
def sortedDesc (l : List (Id × EntityEntry Info)) : Prop :=
  l.Pairwise fun p q => q.2.revno < p.2.revno

instance (l : List (Id × EntityEntry Info)) : Decidable (sortedDesc l) :=
  inferInstanceAs (Decidable (List.Pairwise _ _))

/-- Every revno in the list is at most r. -/
def boundedBy (l : List (Id × EntityEntry Info)) (r : Int) : Prop :=
  ∀ p ∈ l, p.2.revno ≤ r

instance (l : List (Id × EntityEntry Info)) (r : Int) : Decidable (boundedBy l r) :=
  inferInstanceAs (Decidable (∀ p ∈ l, p.2.revno ≤ r))

/-- Well-formedness of an allInfo value: strictly revno-descending list
with latestRevno an upper bound on all entry revnos. -/
def Wf (a : AllInfo Id Info) : Prop :=
  sortedDesc a.list ∧ boundedBy a.list a.latestRevno

instance (a : AllInfo Id Info) : Decidable (Wf a) :=
  inferInstanceAs (Decidable (_ ∧ _))

/-- The oldest outstanding request of a waiting list whose head is the
newest: the last element. -/
def oldestPending (l : List Nat) : Option Nat :=
  l.getLast?

/-- A state with one live entry, used to instantiate theorems with
hypotheses on concrete data. -/
def sampleOne : AllInfo Nat Nat :=
  AllInfo.addRaw newAllInfo 0 7

/-- The entry held by sampleOne at id 0. -/
def sampleEntry : EntityEntry Nat :=
  { revno := 1, creationRevno := 1, removed := false, refCount := 0, info := 7 }

theorem getEntity_update (a : AllInfo Id Info) (id : Id) (info : Info) :
    ∃ e, (a.update id info).getEntity id = some e ∧ e.info = info := by
  cases h : a.getEntity id with
  | none =>
    have h' : findEntry a.list id = none := h
    refine ⟨{ revno := a.latestRevno + 1, creationRevno := a.latestRevno + 1, removed := false, refCount := 0, info := info }, ?_, rfl⟩
    simp [AllInfo.update, h', AllInfo.addRaw, AllInfo.getEntity, findEntry]
  | some e =>
    have h' : findEntry a.list id = some e := h
    by_cases hinfo : info = e.info
    · exact ⟨e, by simp [AllInfo.update, h', hinfo, AllInfo.getEntity], hinfo.symm⟩
    · refine ⟨{ e with revno := a.latestRevno + 1, info := info }, ?_, rfl⟩
      simp [AllInfo.update, h', hinfo, AllInfo.getEntity, findEntry]

/-- C9: changed(id) maps a not-found fetch to markRemoved with no error,
any other fetch error to that error, and a fetched payload to update with
no error. -/
theorem claim9 (a : AllInfo Id Info) (id : Id) :
    changed a id (FetchResult.notFound : FetchResult Info E) = .ok (a.markRemoved id) ∧
    (∀ e : E, changed a id (.fetchErr e) = .error e) ∧
    (∀ i : Info, changed a id (.ok i) = (.ok (a.update id i) : Except E _)) :=
  ⟨rfl, fun _ => rfl, fun _ => rfl⟩

/-- C10: changesSince is read-only; in state-passing form it returns the
input allInfo unchanged alongside the delta list. -/
theorem claim10 (a : AllInfo Id Info) (r : Int) :
    (a.changesSinceS r).1 = a ∧ (a.changesSinceS r).2 = a.changesSince r :=
  ⟨rfl, rfl⟩

/-- C3 counterexample: delete of a missing id does not abort; it returns
normally with the state completely unchanged (Go allInfo.delete has no
panic path), refuting the claim that it aborts the process. -/
theorem claim3_cex :
    AllInfo.delete (newAllInfo : AllInfo Nat Nat) 0 = newAllInfo := by
  decide

/-- C3 amended: add with a duplicate id panics and decRef driving a
refcount negative panics (both embedded as none), but delete of a missing
id is a silent no-op returning the state unchanged. -/
theorem claim3 (a : AllInfo Id Info) (id : Id) (info : Info) :
    ((a.getEntity id).isSome → a.add id info = none) ∧
    (∀ e, a.getEntity id = some e → e.refCount = 0 → a.decRef id = none) ∧
    (a.getEntity id = none → a.delete id = a) := by
  refine ⟨fun h => ?_, fun e he hrc => ?_, fun h => ?_⟩
  · simp [AllInfo.add, h]
  · simp [AllInfo.decRef, he, hrc]
  · simp [AllInfo.delete, h]

/-- C3 witness: on a concrete one-entry state, add of the present id 0 and
decRef of its zero-refcount entry both abort, while delete of the absent
id 1 returns the state unchanged. -/
theorem claim3_witness :
    sampleOne.add 0 9 = none ∧ sampleOne.decRef 0 = none ∧
      sampleOne.delete 1 = sampleOne :=
  ⟨(claim3 sampleOne 0 9).1 (by decide),
   (claim3 sampleOne 0 9).2.1 sampleEntry (by decide) (by decide),
   (claim3 sampleOne 1 9).2.2 (by decide)⟩

/-- C5: markRemoved is a no-op on an absent id or an already-removed
entry; otherwise it bumps latestRevno and either deletes a zero-refcount
entry from list and map outright, or tombstones the entry with the new
revno and moves it to the list front. -/
theorem claim5 (a : AllInfo Id Info) (id : Id) :
    (a.getEntity id = none → a.markRemoved id = a) ∧
    (∀ e, a.getEntity id = some e → e.removed = true → a.markRemoved id = a) ∧
    (∀ e, a.getEntity id = some e → e.removed = false → e.refCount = 0 →
      a.markRemoved id =
        { latestRevno := a.latestRevno + 1, list := removeId a.list id }) ∧
    (∀ e, a.getEntity id = some e → e.removed = false → e.refCount ≠ 0 →
      a.markRemoved id =
        { latestRevno := a.latestRevno + 1,
          list := (id, { e with revno := a.latestRevno + 1, removed := true })
                    :: removeId a.list id }) := by
  refine ⟨fun h => ?_, fun e he hrem => ?_, fun e he hrem hrc => ?_,
    fun e he hrem hrc => ?_⟩
  · simp [AllInfo.markRemoved, h]
  · simp [AllInfo.markRemoved, he, hrem]
  · have he' : findEntry a.list id = some e := he
    simp [AllInfo.markRemoved, AllInfo.delete, AllInfo.getEntity, he', hrem, hrc]
  · simp [AllInfo.markRemoved, he, hrem, hrc]

/-- C5 witness: on a concrete one-entry state, markRemoved of the live
zero-refcount entry 0 bumps latestRevno and deletes it outright. -/
theorem claim5_witness :
    sampleOne.markRemoved 0 = { latestRevno := 2, list := [] } := by
  exact ((claim5 sampleOne 0).2.2.1 sampleEntry (by decide) (by decide)
    (by decide)).trans (by decide)

/-- C7: update with a payload equal to the stored one is a no-op (state
unchanged, so no revno bump and no list movement), hence a second update
with the same payload is absorbed and a later changesSince sees one delta
total from the pair. -/
theorem claim7 (a : AllInfo Id Info) (id : Id) (info : Info) :
    (∀ e, a.getEntity id = some e → e.info = info → a.update id info = a) ∧
    (a.update id info).update id info = a.update id info ∧
    (∀ r, ((a.update id info).update id info).changesSince r
      = (a.update id info).changesSince r) := by
  have noop : ∀ (b : AllInfo Id Info) e, b.getEntity id = some e → e.info = info →
      b.update id info = b := by
    intro b e he hinfo
    simp [AllInfo.update, he, hinfo.symm]
  have absorb : (a.update id info).update id info = a.update id info := by
    obtain ⟨e, he, hinfo⟩ := getEntity_update a id info
    exact noop _ e he hinfo
  exact ⟨fun e he hinfo => noop a e he hinfo, absorb, fun r => by rw [absorb]⟩

/-- C7 witness: on a concrete one-entry state, updating entry 0 with its
stored payload 7 leaves the state unchanged. -/
theorem claim7_witness : sampleOne.update 0 7 = sampleOne :=
  (claim7 sampleOne 0 7).1 sampleEntry (by decide) (by decide)

theorem removeId_sublist (l : List (Id × EntityEntry Info)) (id : Id) :
    List.Sublist (removeId l id) l := by
  induction l with
  | nil => simp [removeId]
  | cons p t ih =>
    by_cases h : p.1 = id
    · have h2 : removeId (p :: t) id = t := by simp [removeId, h]
      rw [h2]
      exact List.sublist_cons_self p t
    · simpa [removeId, h] using ih.cons₂ p

theorem sortedDesc_removeId (l : List (Id × EntityEntry Info)) (id : Id)
    (h : sortedDesc l) : sortedDesc (removeId l id) :=
  h.sublist (removeId_sublist l id)

theorem boundedBy_removeId (l : List (Id × EntityEntry Info)) (id : Id) (r : Int)
    (h : boundedBy l r) : boundedBy (removeId l id) r :=
  fun p hp => h p ((removeId_sublist l id).subset hp)

theorem revnos_replaceId (l : List (Id × EntityEntry Info)) (id : Id)
    (e e' : EntityEntry Info) (hf : findEntry l id = some e)
    (he : e'.revno = e.revno) : revnos (replaceId l id e') = revnos l := by
  induction l with
  | nil => simp [findEntry] at hf
  | cons p t ih =>
    by_cases h : p.1 = id
    · simp [findEntry, h] at hf
      simp [replaceId, h, revnos, he, hf]
    · simp [findEntry, h] at hf
      simpa [replaceId, h, revnos] using ih hf

theorem sortedDesc_iff_revnos (l : List (Id × EntityEntry Info)) :
    sortedDesc l ↔ (revnos l).Pairwise fun x y => y < x := by
  simp [sortedDesc, revnos, List.pairwise_map]

theorem boundedBy_iff_revnos (l : List (Id × EntityEntry Info)) (r : Int) :
    boundedBy l r ↔ ∀ x ∈ revnos l, x ≤ r := by
  constructor
  · intro h x hx
    obtain ⟨p, hp, rfl⟩ := List.mem_map.mp hx
    exact h p hp
  · intro h p hp
    exact h p.2.revno (List.mem_map.mpr ⟨p, hp, rfl⟩)

theorem wf_consFront (a : AllInfo Id Info) (h : Wf a) (id : Id)
    (e : EntityEntry Info) (he : e.revno = a.latestRevno + 1) :
    Wf { latestRevno := a.latestRevno + 1,
         list := (id, e) :: removeId a.list id } := by
  obtain ⟨hs, hb⟩ := h
  constructor
  · refine List.Pairwise.cons (fun q hq => ?_) (sortedDesc_removeId _ _ hs)
    have h1 : q.2.revno ≤ a.latestRevno :=
      hb q ((removeId_sublist a.list id).subset hq)
    show q.2.revno < e.revno
    omega
  · intro p hp
    rcases List.mem_cons.mp hp with rfl | hp'
    · show e.revno ≤ a.latestRevno + 1
      omega
    · have h1 : p.2.revno ≤ a.latestRevno :=
        hb p ((removeId_sublist a.list id).subset hp')
      show p.2.revno ≤ a.latestRevno + 1
      omega

theorem wf_addRaw (a : AllInfo Id Info) (h : Wf a) (id : Id) (info : Info) :
    Wf (a.addRaw id info) := by
  obtain ⟨hs, hb⟩ := h
  constructor
  · refine List.Pairwise.cons (fun q hq => ?_) hs
    have h1 : q.2.revno ≤ a.latestRevno := hb q hq
    show q.2.revno < a.latestRevno + 1
    omega
  · intro p hp
    rcases List.mem_cons.mp hp with rfl | hp'
    · show a.latestRevno + 1 ≤ a.latestRevno + 1
      omega
    · have h1 : p.2.revno ≤ a.latestRevno := hb p hp'
      show p.2.revno ≤ a.latestRevno + 1
      omega

theorem wf_update (a : AllInfo Id Info) (h : Wf a) (id : Id) (info : Info) :
    Wf (a.update id info) := by
  cases hf : findEntry a.list id with
  | none =>
    simpa [AllInfo.update, AllInfo.getEntity, hf] using wf_addRaw a h id info
  | some e =>
    by_cases hinfo : info = e.info
    · simpa [AllInfo.update, AllInfo.getEntity, hf, hinfo] using h
    · have := wf_consFront a h id { e with revno := a.latestRevno + 1, info := info } rfl
      simpa [AllInfo.update, AllInfo.getEntity, hf, hinfo] using this

theorem wf_markRemoved (a : AllInfo Id Info) (h : Wf a) (id : Id) :
    Wf (a.markRemoved id) := by
  cases hf : findEntry a.list id with
  | none => simpa [AllInfo.markRemoved, AllInfo.getEntity, hf] using h
  | some e =>
    by_cases hrem : e.removed = true
    · simpa [AllInfo.markRemoved, AllInfo.getEntity, hf, hrem] using h
    · by_cases hrc : e.refCount = 0
      · obtain ⟨hs, hb⟩ := h
        have hwf : Wf { latestRevno := a.latestRevno + 1, list := removeId a.list id } := by
          refine ⟨sortedDesc_removeId _ _ hs, fun p hp => ?_⟩
          have h1 : p.2.revno ≤ a.latestRevno :=
            hb p ((removeId_sublist a.list id).subset hp)
          show p.2.revno ≤ a.latestRevno + 1
          omega
        simpa [AllInfo.markRemoved, AllInfo.getEntity, AllInfo.delete, hf, hrem,
          hrc] using hwf
      · have := wf_consFront a h id
          { e with revno := a.latestRevno + 1, removed := true } rfl
        simpa [AllInfo.markRemoved, AllInfo.getEntity, hf, hrem, hrc] using this

theorem wf_decRef (a : AllInfo Id Info) (h : Wf a) (id : Id)
    (a' : AllInfo Id Info) (h2 : a.decRef id = some a') : Wf a' := by
  obtain ⟨hs, hb⟩ := h
  cases hf : findEntry a.list id with
  | none => simp [AllInfo.decRef, AllInfo.getEntity, hf] at h2
  | some e =>
    have hrepl : ∀ e' : EntityEntry Info, e'.revno = e.revno →
        Wf { a with list := replaceId a.list id e' } := by
      intro e' hrev'
      have hrev := revnos_replaceId a.list id e e' hf hrev'
      constructor
      · rw [sortedDesc_iff_revnos]
        simpa [hrev] using (sortedDesc_iff_revnos a.list).mp hs
      · rw [boundedBy_iff_revnos]
        simpa [hrev] using (boundedBy_iff_revnos a.list a.latestRevno).mp hb
    by_cases h1 : e.refCount - 1 > 0
    · simp [AllInfo.decRef, AllInfo.getEntity, hf, h1] at h2
      exact h2 ▸ hrepl _ rfl
    · by_cases h2' : e.refCount - 1 < 0
      · simp [AllInfo.decRef, AllInfo.getEntity, hf, h1, h2'] at h2
      · by_cases h3 : e.removed = false
        · simp [AllInfo.decRef, AllInfo.getEntity, hf, h1, h2', h3] at h2
          exact h2 ▸ hrepl _ rfl
        · simp [AllInfo.decRef, AllInfo.getEntity, hf, h1, h2', h3] at h2
          refine h2 ▸ ⟨sortedDesc_removeId _ _ hs, boundedBy_removeId _ _ _ hb⟩

/-- C8: each mutation (add, update, markRemoved, decRef) preserves the
strict revno-descending order of the list, so no two entries share a
revno; shown for any well-formed state (sorted list, latestRevno an upper
bound on entry revnos). -/
theorem claim8 (a : AllInfo Id Info) (id : Id) (info : Info) (h : Wf a) :
    (∀ a', a.add id info = some a' → sortedDesc a'.list) ∧
    sortedDesc (a.update id info).list ∧
    sortedDesc (a.markRemoved id).list ∧
    (∀ a', a.decRef id = some a' → sortedDesc a'.list) := by
  refine ⟨fun a' ha => ?_, (wf_update a h id info).1, (wf_markRemoved a h id).1,
    fun a' ha => (wf_decRef a h id a' ha).1⟩
  by_cases hp : (a.getEntity id).isSome
  · simp [AllInfo.add, hp] at ha
  · simp [AllInfo.add, hp] at ha
    exact ha ▸ (wf_addRaw a h id info).1

/-- C8 witness: the concrete one-entry state is well-formed and stays
sorted after an update that inserts a second entry. -/
theorem claim8_witness :
    Wf sampleOne ∧ sortedDesc ((sampleOne.update 1 5).list) :=
  ⟨by decide, (claim8 sampleOne 1 5 (by decide)).2.1⟩

/-- C2 counterexample: add(0) then markRemoved(0) with refCount 0 leaves
the list empty while latestRevno is 2, not 0, so after this completed
markRemoved latestRevno does not equal the maximum revno over the held
entries (0 for the empty list). -/
theorem claim2_cex :
    (((newAllInfo : AllInfo Nat Nat).addRaw 0 0).markRemoved 0).list = [] ∧
    (((newAllInfo : AllInfo Nat Nat).addRaw 0 0).markRemoved 0).latestRevno ≠ 0 := by
  decide

/-- C2 amended: after every completed AllInfo mutation latestRevno is an
upper bound on the revno of every entry still held (equality with the
maximum can fail: markRemoved and decRef may delete the entry carrying the
maximum and markRemoved bumps latestRevno even when it deletes). -/
theorem claim2 (a : AllInfo Id Info) (id : Id) (info : Info) (h : Wf a) :
    (∀ a', a.add id info = some a' → boundedBy a'.list a'.latestRevno) ∧
    boundedBy (a.update id info).list (a.update id info).latestRevno ∧
    boundedBy (a.markRemoved id).list (a.markRemoved id).latestRevno ∧
    (∀ a', a.decRef id = some a' → boundedBy a'.list a'.latestRevno) := by
  refine ⟨fun a' ha => ?_, (wf_update a h id info).2, (wf_markRemoved a h id).2,
    fun a' ha => (wf_decRef a h id a' ha).2⟩
  by_cases hp : (a.getEntity id).isSome
  · simp [AllInfo.add, hp] at ha
  · simp [AllInfo.add, hp] at ha
    exact ha ▸ (wf_addRaw a h id info).2

/-- C2 witness: on the concrete well-formed one-entry state, after
markRemoved(0) every remaining entry revno is bounded by latestRevno. -/
theorem claim2_witness :
    Wf sampleOne ∧
      boundedBy (sampleOne.markRemoved 0).list (sampleOne.markRemoved 0).latestRevno :=
  ⟨by decide, (claim2 sampleOne 0 0 (by decide)).2.2.1⟩

/-- C1 counterexample: with two outstanding Next requests, tagged 1 (older)
then 2 (newer, pushed at the head by handle), a respond pass over a state
with available changes replies to request 2 — the newest — not to the
oldest pending request, which is 1. -/
theorem claim1_cex :
    (respondOne sampleOne (handleNext (handleNext { revno := 0, pending := [] } 1) 2)).replied
        = some (2, [{ removed := false, entity := 7 }]) ∧
      oldestPending (handleNext (handleNext { revno := 0, pending := [] } 1) 2).pending
        = some 1 ∧
      (2 : Nat) ≠ 1 := by
  decide

/-- C1 amended: each respond pass satisfies only the most recently added
pending request of an observer (the head of its waiting list, where handle
pushes): it sets that request's changes to the delta list, advances the
observer's revno to latestRevno, replies true, and pops it; the remaining
requests wait, and with no available changes nothing is replied. -/
theorem claim1 (all : AllInfo Id Info) (w : WatcherState) (req : Nat)
    (rest : List Nat) (hp : w.pending = req :: rest) :
    (all.changesSince w.revno ≠ [] →
      respondOne all w = { revno := all.latestRevno, pending := rest,
                           replied := some (req, all.changesSince w.revno) }) ∧
    (all.changesSince w.revno = [] →
      respondOne all w = { revno := w.revno, pending := req :: rest,
                           replied := none }) := by
  constructor <;> intro hc <;> simp [respondOne, hp, hc]

theorem takeWhile_eq_filter_of_sorted (r : Int) (l : List (Id × EntityEntry Info))
    (h : sortedDesc l) :
    (l.takeWhile fun p => decide (r < p.2.revno))
      = l.filter fun p => decide (r < p.2.revno) := by
  induction l with
  | nil => simp
  | cons p t ih =>
    have h' : (∀ q ∈ t, q.2.revno < p.2.revno) ∧ sortedDesc t :=
      List.pairwise_cons.mp h
    by_cases hp : r < p.2.revno
    · simp [List.takeWhile_cons, List.filter_cons, hp]
      exact ih h'.2
    · have hnil : (t.filter fun q => decide (r < q.2.revno)) = [] := by
        rw [List.filter_eq_nil_iff]
        intro q hq
        have h2 := h'.1 q hq
        simp
        omega
      simp [List.takeWhile_cons, List.filter_cons, hp, hnil]

/-- C4: on a state whose list is strictly revno-descending (the documented
invariant, preserved by every mutation), changesSince(r) emits exactly one
delta per entry with revno > r, skipping entries that are removed with
creationRevno > r, in ascending revno order (oldest first), each delta
carrying the entry's removed flag and payload. -/
theorem claim4 (a : AllInfo Id Info) (r : Int) (h : sortedDesc a.list) :
    a.changesSince r
      = ((a.list.filter fun p => decide (r < p.2.revno)).reverse).filterMap
          (fun p =>
            if p.2.removed && decide (r < p.2.creationRevno) then none
            else some { removed := p.2.removed, entity := p.2.info }) ∧
    ((a.list.filter fun p => decide (r < p.2.revno)).reverse).Pairwise
      (fun p q => p.2.revno < q.2.revno) := by
  constructor
  · unfold AllInfo.changesSince
    rw [takeWhile_eq_filter_of_sorted r a.list h]
  · rw [List.pairwise_reverse]
    exact h.filter _

/-- C4 witness: the concrete one-entry state is sorted and its changes
since revno 0 are the filtered entries in ascending revno order. -/
theorem claim4_witness :
    sortedDesc sampleOne.list ∧
      sampleOne.changesSince 0
        = ((sampleOne.list.filter fun p => decide ((0 : Int) < p.2.revno)).reverse).filterMap
            (fun p =>
              if p.2.removed && decide ((0 : Int) < p.2.creationRevno) then none
              else some { removed := p.2.removed, entity := p.2.info }) :=
  ⟨by decide, (claim4 sampleOne 0 (by decide)).1⟩

theorem findEntry_none_keys (l : List (Id × EntityEntry Info)) (id : Id)
    (h : findEntry l id = none) : ∀ p ∈ l, p.1 ≠ id := by
  induction l with
  | nil => simp
  | cons q t ih =>
    by_cases hq : q.1 = id
    · simp [findEntry, hq] at h
    · intro p hp
      rcases List.mem_cons.mp hp with rfl | hp'
      · exact hq
      · exact ih (by simpa [findEntry, hq] using h) p hp'

theorem changesSince_mem (b : AllInfo Id Info) (r : Int) (d : Delta Info)
    (hd : d ∈ b.changesSince r) :
    ∃ p, p ∈ b.list ∧ d.removed = p.2.removed ∧ d.entity = p.2.info ∧
      (p.2.removed = true → p.2.creationRevno ≤ r) := by
  unfold AllInfo.changesSince at hd
  obtain ⟨p, hp, hf⟩ := List.mem_filterMap.mp hd
  rw [List.mem_reverse] at hp
  have hp2 : p ∈ b.list :=
    (List.takeWhile_sublist _).subset hp
  by_cases hc : p.2.removed && decide (r < p.2.creationRevno)
  · simp [hc] at hf
  · rw [if_neg hc] at hf
    have hd' := (Option.some.injEq _ _).mp hf
    refine ⟨p, hp2, ?_, ?_, ?_⟩
    · rw [← hd']
    · rw [← hd']
    · intro hrem
      simp [hrem] at hc
      omega

/-- C6: add(id) immediately followed by markRemoved(id) with the fresh
entry's refCount still 0 restores the original entry list (latestRevno
advances by 2), so no subsequent changesSince at any revno contains a
delta for id; and in general a removed delta only ever arises from an
entry whose creationRevno is at most the queried revno. -/
theorem claim6 (a : AllInfo Id Info) (id : Id) (info : Info)
    (h : a.getEntity id = none) :
    (a.addRaw id info).markRemoved id
        = { latestRevno := a.latestRevno + 2, list := a.list } ∧
    (∀ (r : Int) (d : Delta Info),
      d ∈ ((a.addRaw id info).markRemoved id).changesSince r →
      ∃ p, p ∈ a.list ∧ p.1 ≠ id ∧ d.removed = p.2.removed ∧ d.entity = p.2.info) ∧
    (∀ (b : AllInfo Id Info) (r : Int) (d : Delta Info), d ∈ b.changesSince r →
      d.removed = true →
      ∃ p, p ∈ b.list ∧ p.2.removed = true ∧ p.2.creationRevno ≤ r ∧
        d.entity = p.2.info) := by
  have hstate : (a.addRaw id info).markRemoved id
      = { latestRevno := a.latestRevno + 2, list := a.list } := by
    have hfe : findEntry ((a.addRaw id info).list) id
        = some { revno := a.latestRevno + 1, creationRevno := a.latestRevno + 1,
                 removed := false, refCount := 0, info := info } := by
      simp [AllInfo.addRaw, findEntry]
    have hrm : removeId ((a.addRaw id info).list) id = a.list := by
      simp [AllInfo.addRaw, removeId]
    simp only [AllInfo.markRemoved, AllInfo.getEntity, hfe, AllInfo.delete,
      AllInfo.addRaw]
    simp [findEntry, removeId, AllInfo.mk.injEq]
    omega
  refine ⟨hstate, fun r d hd => ?_, fun b r d hd hrem => ?_⟩
  · rw [hstate] at hd
    obtain ⟨p, hp, h1, h2, _⟩ := changesSince_mem _ r d hd
    exact ⟨p, hp, findEntry_none_keys a.list id h p hp, h1, h2⟩
  · obtain ⟨p, hp, h1, h2, h3⟩ := changesSince_mem b r d hd
    have hprem : p.2.removed = true := by rw [← h1, hrem]
    exact ⟨p, hp, hprem, h3 hprem, h2⟩

/-- C6 witness: on the concrete one-entry state, adding id 1 and marking
it removed restores the original list with latestRevno advanced to 3. -/
theorem claim6_witness :
    (sampleOne.addRaw 1 9).markRemoved 1
      = { latestRevno := 3, list := [(0, sampleEntry)] } :=
  ((claim6 sampleOne 1 9 (by decide)).1).trans (by decide)

/-- C1 witness: on the concrete one-entry state with pending requests
[2, 1] (2 newest), respond replies to request 2 with the single delta,
advances the revno to 1, and leaves request 1 pending. -/
theorem claim1_witness :
    respondOne sampleOne { revno := 0, pending := [2, 1] }
      = { revno := 1, pending := [1],
          replied := some (2, [{ removed := false, entity := 7 }]) } :=
  ((claim1 sampleOne { revno := 0, pending := [2, 1] } 2 [1] rfl).1
    (by decide)).trans (by decide)

end Megawatcher
